import Mathlib

/-!
Shallow embedding of the updatebot core (`components/scmprovider.py` and
`apis/taskcluster.py`).  External collaborators (git subprocesses, HTTP
requests) are modelled as environment records holding the raw byte/string
outputs the code would read from them; the Python code operating on those
outputs is translated function by function.  A Python exception is modelled
as `Option.none` or `Except.error`.
-/

set_option autoImplicit false

namespace Updatebot

/-! ## Python string primitives

The source uses `str.split()` (no argument: split on runs of whitespace,
dropping empty pieces), `str.split(sep)` with a one-character separator
(keeping empty pieces), `str.strip()` and `str.replace(old, new)` with a
one-character `old`.  These are modelled here, character-list first.
-/

/-- Characters Python's `str.split()` / `str.strip()` treat as whitespace. -/
def isPyWs (c : Char) : Bool :=
  c = ' ' || c = '\t' || c = '\n' || c = '\r' || c = '\x0b' || c = '\x0c'

/-- Accumulator-passing worker for `str.split()` (no argument). -/
def wsSplitAux : List Char → List Char → List (List Char)
  | [], acc => if acc.isEmpty then [] else [acc.reverse]
  | c :: cs, acc =>
    if isPyWs c then
      if acc.isEmpty then wsSplitAux cs []
      else acc.reverse :: wsSplitAux cs []
    else wsSplitAux cs (c :: acc)

/-- Python `s.split()`: split on runs of whitespace, dropping empty pieces. -/
def pySplitWs (s : String) : List String :=
  (wsSplitAux s.data []).map List.asString

/-- Accumulator-passing worker for `str.split(sep)` with one-character `sep`. -/
def charSplitAux (sep : Char) : List Char → List Char → List (List Char)
  | [], acc => [acc.reverse]
  | c :: cs, acc =>
    if c = sep then acc.reverse :: charSplitAux sep cs []
    else charSplitAux sep cs (c :: acc)

/-- Python `s.split(sep)` for a one-character separator (keeps empty pieces). -/
def pySplitOn (sep : Char) (s : String) : List String :=
  (charSplitAux sep s.data []).map List.asString

/-- Python `s.strip()`: drop leading and trailing whitespace. -/
def pyStrip (s : String) : String :=
  (((s.data.dropWhile isPyWs).reverse.dropWhile isPyWs).reverse).asString

/-- Worker for `str.replace(old, new)` with a one-character `old`. -/
def pyReplaceCharList (pat : Char) (repl : List Char) : List Char → List Char
  | [] => []
  | c :: cs => (if c = pat then repl else [c]) ++ pyReplaceCharList pat repl cs

/-- Python `s.replace(old, new)` for the one-character `old` used in the source. -/
def pyReplaceChar (pat : Char) (repl : String) (s : String) : String :=
  (pyReplaceCharList pat repl.data s.data).asString

/-! ## The Commit record (`scmprovider.py`, class `Commit`)

`Commit.__init__` parses a `"%H|%ai|%ci"` pretty line; the file lists start
empty and `summary` / `description` / `revision_link` do not exist until
`populate_details` assigns them (modelled with `Option`, `none` = attribute
not yet set).
-/

structure Commit where
  revision : String
  author_date : String
  commit_date : String
  files_modified : List String := []
  files_added : List String := []
  files_deleted : List String := []
  files_other : List String := []
  summary : Option String := none
  description : Option String := none
  revision_link : Option String := none
  deriving DecidableEq

/-- Python `Commit.__init__(pretty_line)`: `parts = pretty_line.split("|")`, then
`parts[0]`, `parts[1]`, `parts[2]`.  `none` models the `IndexError` Python
raises when the line has fewer than three `|`-separated parts. -/
def Commit.ofPrettyLine? (pretty_line : String) : Option Commit :=
  match pySplitOn '|' pretty_line with
  | p0 :: p1 :: p2 :: _ => some { revision := p0, author_date := p1, commit_date := p2 }
  | _ => none

/-- The commit record `Commit.__init__` builds from a well-formed pretty
line: field `i` is the `i`-th `|`-separated part of the line. -/
def parsed_commit (pretty_line : String) : Commit :=
  let parts := pySplitOn '|' pretty_line
  { revision := parts.getD 0 ""
    author_date := parts.getD 1 ""
    commit_date := parts.getD 2 "" }

/-- Outputs of the `run` collaborator that `Commit.populate_details` reads,
keyed by the commit revision the git command names. -/
structure RunOutputs where
  /-- stdout of `git diff --name-status <rev>^ <rev>`. -/
  diff_name_status : String → String
  /-- stdout of `git log --pretty=%s -1 <rev>`. -/
  log_summary : String → String
  /-- stdout of `git log --pretty=%b -1 <rev>`. -/
  log_body : String → String

/-- One iteration of the `for f in files_changed` loop in `populate_details`.
`none` models the `IndexError` on `parts[1]` when the token has no tab. -/
def processDiffToken (c : Commit) (f : String) : Option Commit :=
  let f := pyStrip f
  if f = "" then some c
  else
    let parts := pySplitOn '\t' f
    let p0 := parts.headD ""
    if p0 = "M" then (parts[1]?).map fun p1 => { c with files_modified := c.files_modified ++ [p1] }
    else if p0 = "A" then (parts[1]?).map fun p1 => { c with files_added := c.files_added ++ [p1] }
    else if p0 = "D" then (parts[1]?).map fun p1 => { c with files_deleted := c.files_deleted ++ [p1] }
    else (parts[1]?).map fun p1 => { c with files_other := c.files_other ++ [p0 ++ " " ++ p1] }

/-- The whole `for f in files_changed` loop. -/
def process_diff_tokens (c : Commit) : List String → Option Commit
  | [] => some c
  | f :: rest =>
    match processDiffToken c f with
    | none => none
    | some c2 => process_diff_tokens c2 rest

/-- Python `Commit.populate_details(run)`: tokenize the `--name-status` diff with
`str.split()`, classify each token, then assign `summary`, `description`
and `revision_link`.  `none` models an uncaught `IndexError`. -/
def Commit.populate_details (run : RunOutputs) (c : Commit) : Option Commit :=
  match process_diff_tokens c (pySplitWs (run.diff_name_status c.revision)) with
  | none => none
  | some c2 =>
    some { c2 with
      summary := some (run.log_summary c2.revision)
      description := some (run.log_body c2.revision)
      revision_link := some ("https://chromium.googlesource.com/angle/angle" ++ "/+/" ++ c2.revision) }

/-- A Python value a `Commit` may be compared against with `==`: another
`Commit`, or any value of a different class (carried abstractly). -/
inductive PyValue where
  | commit (c : Commit)
  | other (tag : String)

/-- Python `Commit.__eq__`: revision equality against another `Commit`, `False`
against anything that is not a `Commit`. -/
def Commit.py_eq (self : Commit) (o : PyValue) : Bool :=
  match o with
  | .commit c => self.revision == c.revision
  | .other _ => false

/-! ## SCMProvider (`scmprovider.py`)

`check_for_update` talks to git through `self.run`.  The `GitEnv` record
holds the raw stdout the git subprocesses produce in the freshly cloned
(and, when `task.branch` is set, checked out) working directory; the
chdir/tempdir/cleanup plumbing carries no value and is not modelled.
-/

structure Library where
  name : String
  revision : String
  repo_url : String
  deriving DecidableEq

/-- The `task` argument; only its `branch` attribute is read, and only to
pick which branch the external checkout tracks (reflected in `GitEnv`). -/
structure UBTask where
  branch : String
  deriving DecidableEq

/-- One entry of `all_library_jobs`; `version` is the revision the job ran
against, `bugzilla_id` is only logged. -/
structure JobRecord where
  version : String
  bugzilla_id : String
  deriving DecidableEq

/-- Raw git stdout as seen by `check_for_update` after clone/checkout. -/
structure GitEnv where
  /-- stdout of `git rev-parse --abbrev-ref HEAD`. -/
  rev_parse_head : String
  /-- stdout of `git branch --contains <library.revision>`. -/
  branch_contains : String
  /-- stdout of `git log --pretty=%H|%ai|%ci <rev>..HEAD`, keyed by `<rev>`. -/
  log_since : String → String
  /-- outputs read by `populate_details`. -/
  run_outputs : RunOutputs

/-- The exceptions `check_for_update` can raise. -/
inductive CfuError where
  /-- Python `raise Exception("The current revision %s is not contained in the current branch %s.")`,
  logging the containing branches first. -/
  | revNotContained (revision current_branch : String) (containing_branches : List String)
  /-- An `IndexError` inside `Commit.__init__` (malformed pretty line). -/
  | commitIndexError
  /-- the `assert offsetIndex != len(all_new_upstream_commits)` failing. -/
  | assertOffsetIsLength
  /-- The call `error_func("There are more unseen upstream commits than new upstream commits??")`. -/
  | moreUnseenThanAllNew
  /-- The call `error_func("unseen_new_upstream_commits is not a strict ordered subset of all_new_upstream_commits")`. -/
  | notStrictSubset
  /-- An `IndexError` inside `populate_details`. -/
  | populateIndexError
  deriving DecidableEq

/-- Python `list.__eq__` on commit lists: same length and `Commit.__eq__`
(revision equality) pointwise. -/
def commitListEq : List Commit → List Commit → Bool
  | [], [] => true
  | a :: as, b :: bs => (a.revision == b.revision) && commitListEq as bs
  | _, _ => false

/-- The `[Commit(c) for c in commits if c]` comprehension of `_commits_since`:
filter kept aside (see `commits_of_output`), this builds each record in
order, propagating the first `IndexError`. -/
def build_commits : List String → Option (List Commit)
  | [] => some []
  | line :: rest =>
    match Commit.ofPrettyLine? line with
    | none => none
    | some c =>
      match build_commits rest with
      | none => none
      | some cs => some (c :: cs)

/-- Python `SCMProvider._commits_since` applied to a given raw `git log` stdout:
whitespace-tokenize, strip, reverse into oldest-first order, drop empty
entries, build the records. -/
def commits_of_output (out : String) : Option (List Commit) :=
  let commits := (pySplitWs out).map pyStrip
  let commits := commits.reverse
  build_commits (commits.filter (fun c => c ≠ ""))

/-- Python `SCMProvider._commits_since(revision)` against the environment. -/
def commits_since (log_since : String → String) (revision : String) : Option (List Commit) :=
  commits_of_output (log_since revision)

/-- The `[c.populate_details(self.run) for c in unseen_new_upstream_commits]`
comprehension: populate in order, propagating the first `IndexError`. -/
def populate_list (run : RunOutputs) : List Commit → Option (List Commit)
  | [] => some []
  | c :: cs =>
    match Commit.populate_details run c with
    | none => none
    | some c2 =>
      match populate_list run cs with
      | none => none
      | some cs2 => some (c2 :: cs2)

/-- Step 6 of `check_for_update` as an `Except`: populate every unseen
commit or raise. -/
def populate_all (run : RunOutputs) (cs : List Commit) : Except CfuError (List Commit) :=
  match populate_list run cs with
  | none => .error .populateIndexError
  | some l => .ok l

/-- Line `current_branch = self.run(["git", "rev-parse", "--abbrev-ref", "HEAD"]).stdout.decode().strip()`. -/
def current_branch_of (env : GitEnv) : String :=
  pyStrip env.rev_parse_head

/-- Line `containing_branches = [line.replace("*", "").strip() for line in ret.stdout.decode().split()]`. -/
def containing_branches_of (env : GitEnv) : List String :=
  (pySplitWs env.branch_contains).map (fun line => pyStrip (pyReplaceChar '*' "" line))

/-- Python `SCMProvider.check_for_update(library, task, all_library_jobs)`. -/
def check_for_update (env : GitEnv) (library : Library) (task : UBTask)
    (all_library_jobs : List JobRecord) : Except CfuError (List Commit) :=
  -- Step 0 (clone, optional `git checkout task.branch`, tempdir bookkeeping)
  -- only shapes `env`; the try/finally cleanup carries no value.
  -- Step 1: branch containment check.
  if ¬ (containing_branches_of env).contains (current_branch_of env) then
    .error (.revNotContained library.revision (current_branch_of env) (containing_branches_of env))
  else
    -- Step 2: commits between library.revision and HEAD.
    match commits_since env.log_since library.revision with
    | none => .error .commitIndexError
    | some all_new_upstream_commits =>
      if all_new_upstream_commits = [] then .ok []
      else
        -- Steps 3 and 4: classify the most recent job, if any.
        match all_library_jobs with
        | [] => populate_all env.run_outputs all_new_upstream_commits
        | most_recent_job :: _ =>
          if (all_new_upstream_commits.map Commit.revision).contains most_recent_job.version then
            match commits_since env.log_since most_recent_job.version with
            | none => .error .commitIndexError
            | some unseen_new_upstream_commits =>
              if unseen_new_upstream_commits.length = 0 then .ok []
              else
                -- Step 5: suffix validation.
                let offsetIndex : Int :=
                  (all_new_upstream_commits.length : Int) - (unseen_new_upstream_commits.length : Int)
                if offsetIndex = (all_new_upstream_commits.length : Int) then
                  .error .assertOffsetIsLength
                else if offsetIndex < 0 then
                  .error .moreUnseenThanAllNew
                else if ¬ commitListEq (all_new_upstream_commits.drop offsetIndex.toNat)
                    unseen_new_upstream_commits then
                  .error .notStrictSubset
                else
                  populate_all env.run_outputs unseen_new_upstream_commits
          else
            populate_all env.run_outputs all_new_upstream_commits

/-! ## TaskclusterProvider (`taskcluster.py`) -/

/-- Constant `TRIGGER_TOTAL = 4` ("We want to run tests a total of four times"). -/
def TRIGGER_TOTAL : Nat := 4

/-- One page of the paginated `api/jobs/?push_id=...` result. -/
structure JobsPage where
  results : List (List String)
  job_property_names : List String
  deriving DecidableEq

/-- Exceptions raised inside the pagination loop of `get_job_details`. -/
inductive JobsError where
  /-- "The first j['job_property_names'] was %i elements long, but a subsequant one was %i". -/
  | propertyNamesLengthMismatch (firstLen pageLen : Nat)
  /-- "Property name %s (index %i) doesn't match %s". -/
  | propertyNameMismatch (i : Nat) (firstName pageName : String)
  deriving DecidableEq

/-- Exceptions surfaced by `get_job_details`. -/
inductive GetJobsError where
  /-- the wrapping `raise Exception("Could not obtain all the job results...") from e`. -/
  | couldNotObtainAll (cause : JobsError)
  /-- An `IndexError` inside `_transform_job_list`. -/
  | transformIndexError
  deriving DecidableEq

/-- The `for i in range(len(property_names))` validation loop, iterating the
elements of `property_names` with their index. -/
def validate_names_go (names page_names : List String) : Nat → List String → Except JobsError Unit
  | _, [] => .ok ()
  | i, n :: rest =>
    if names.length ≠ page_names.length then
      .error (.propertyNamesLengthMismatch names.length page_names.length)
    else if n ≠ page_names.getD i "" then
      .error (.propertyNameMismatch i n (page_names.getD i ""))
    else validate_names_go names page_names (i + 1) rest

/-- Validate one page's `job_property_names` against the recorded ones. -/
def validate_names (names page_names : List String) : Except JobsError Unit :=
  validate_names_go names page_names 0 names

/-- The `while job_details_url` loop of `get_job_details`: extend the job
list with each page's results, record the first (truthy) property-name list,
validate every later page against it. -/
def get_job_details_loop : List JobsPage → List String → List (List String) →
    Except JobsError (List String × List (List String))
  | [], property_names, job_list => .ok (property_names, job_list)
  | page :: rest, property_names, job_list =>
    let job_list := job_list ++ page.results
    if property_names = [] then
      get_job_details_loop rest page.job_property_names job_list
    else
      match validate_names property_names page.job_property_names with
      | .error e => .error e
      | .ok _ => get_job_details_loop rest property_names job_list

/-- Python `TaskclusterProvider._transform_job_list`: for each raw job row, record
the assignments `d[property_names[i]] = j[i]` in loop order; `none` models
the `IndexError` when a row is shorter than the property-name list. -/
def transform_job_list (property_names : List String) (job_list : List (List String)) :
    Option (List (List (String × String))) :=
  job_list.mapM fun j =>
    (List.range property_names.length).mapM fun i =>
      (j[i]?).map fun v => (property_names.getD i "", v)

/-- Python `TaskclusterProvider.get_job_details` from the list of pages the
CI-status service serves for the push (the push-id lookup and HTTP/JSON
transport are external). -/
def get_job_details (pages : List JobsPage) : Except GetJobsError (List (List (String × String))) :=
  match get_job_details_loop pages [] [] with
  | .error e => .error (.couldNotObtainAll e)
  | .ok (property_names, job_list) =>
    match transform_job_list property_names job_list with
    | none => .error .transformIndexError
    | some l => .ok l

/-- A treeherder job as used by `retrigger_jobs`. -/
structure TCJob where
  job_type_name : String
  task_id : String
  deriving DecidableEq

/-- One entry of the `actions.json` catalog, with the fields
`retrigger_jobs` reads (`hookPayload.decision.action.taskGroupId` flattened
into `taskGroupId`). -/
structure TCAction where
  name : String
  hookGroupId : String
  hookId : String
  taskGroupId : String
  deriving DecidableEq

/-- One element of `context['input']['requests']`. -/
structure RetriggerInputRequest where
  tasks : List String
  times : Nat
  deriving DecidableEq

/-- The JSON-E context built by `retrigger_jobs` (its `input.requests` list
flattened into `requests`). -/
structure RetriggerContext where
  taskGroupId : String
  taskId : Option String
  requests : List RetriggerInputRequest
  deriving DecidableEq

/-- One HTTP POST issued to the orchestration service. -/
structure PostRequest where
  url : String
  context : RetriggerContext
  deriving DecidableEq

/-- Exceptions `retrigger_jobs` raises before issuing its POST. -/
inductive RetriggerError where
  /-- Statement `assert decision_task is not None`. -/
  | noDecisionTask
  /-- "Could not parse the result of the actions.json artifact as json". -/
  | actionsJsonParseError
  /-- Statement `assert retrigger_action is not None`. -/
  | noRetriggerAction
  deriving DecidableEq

/-- External collaborators of `retrigger_jobs`: the actions.json artifact
keyed by the decision task's id (`none` = unparsable), and `urllib`'s
`quote_plus` encoder. -/
structure TCEnv where
  actions_for : String → Option (List TCAction)
  quote_plus : String → String

/-- Python `TaskclusterProvider.retrigger_jobs(job_list, retrigger_list)` up to and
including the single trigger POST it issues; the returned list holds the
POSTs issued (the response handling after the POST only shapes the return
value / re-raise and issues no further mutation). -/
def retrigger_jobs (env : TCEnv) (url_taskcluster : String)
    (job_list retrigger_list : List TCJob) : Except RetriggerError (List PostRequest) :=
  match job_list.find? (fun j => "Gecko Decision Task" = j.job_type_name) with
  | none => .error .noDecisionTask
  | some decision_task =>
    match env.actions_for decision_task.task_id with
    | none => .error .actionsJsonParseError
    | some actions =>
      match actions.find? (fun a => "retrigger-multiple" = a.name) with
      | none => .error .noRetriggerAction
      | some retrigger_action =>
        let retrigger_tasks := retrigger_list.map TCJob.job_type_name
        let context : RetriggerContext :=
          { taskGroupId := retrigger_action.taskGroupId
            taskId := none
            requests := [{ tasks := retrigger_tasks, times := TRIGGER_TOTAL - 1 }] }
        let trigger_url := url_taskcluster ++ "api/hooks/v1/hooks/" ++
          env.quote_plus retrigger_action.hookGroupId ++ "/" ++
          env.quote_plus retrigger_action.hookId ++ "/trigger"
        .ok [{ url := trigger_url, context := context }]

/-! ## Concrete sample inputs used by the witness theorems -/

/-- An unpopulated commit record, as the range fetch creates them. -/
def mkCommit (r a c : String) : Commit :=
  { revision := r, author_date := a, commit_date := c }

/-- The record `mkCommit r a c` after `populate_details` under `wRun`. -/
def mkPopulated (r a c : String) : Commit :=
  { revision := r, author_date := a, commit_date := c,
    summary := some "s", description := some "b",
    revision_link := some ("https://chromium.googlesource.com/angle/angle/+/" ++ r) }

/-- Sample `run` collaborator: empty diffs, fixed one-line messages. -/
def wRun : RunOutputs :=
  { diff_name_status := fun _ => "", log_summary := fun _ => "s", log_body := fun _ => "b" }

/-- Sample git environment: on branch `main`, history `R0 → R1 → R2 → R3`. -/
def wEnv : GitEnv :=
  { rev_parse_head := "main\n"
    branch_contains := "* main\n  dev\n"
    log_since := fun r =>
      if r = "R0" then "R3|a3|c3\nR2|a2|c2\nR1|a1|c1\n"
      else if r = "R1" then "R3|a3|c3\nR2|a2|c2\n"
      else ""
    run_outputs := wRun }

/-- Sample git environment whose two fetches disagree (rewritten history):
`commits_since R0 = [A, B]` but `commits_since A = [C]`. -/
def wEnvRewritten : GitEnv :=
  { rev_parse_head := "main\n"
    branch_contains := "* main\n"
    log_since := fun r =>
      if r = "R0" then "B|1|1\nA|1|1\n"
      else if r = "A" then "C|1|1\n"
      else ""
    run_outputs := wRun }

/-- Sample git environment where the checked-out branch does not contain the
library revision. -/
def wEnvNoBranch : GitEnv :=
  { rev_parse_head := "main\n"
    branch_contains := "  dev\n"
    log_since := fun _ => ""
    run_outputs := wRun }

def wLib : Library := { name := "lib", revision := "R0", repo_url := "u" }

def wTask : UBTask := { branch := "" }

def wAllNew : List Commit := [mkCommit "R1" "a1" "c1", mkCommit "R2" "a2" "c2", mkCommit "R3" "a3" "c3"]

def wUnseen : List Commit := [mkCommit "R2" "a2" "c2", mkCommit "R3" "a3" "c3"]

def wRes : List Commit := [mkPopulated "R2" "a2" "c2", mkPopulated "R3" "a3" "c3"]

/-- Two job pages whose property-name lists differ, the first one empty. -/
def wPagesEmptyFirst : List JobsPage := [⟨[["x"]], []⟩, ⟨[], ["a"]⟩]

/-- Two job pages whose non-empty property-name lists differ. -/
def wPagesMismatch : List JobsPage := [⟨[], ["a"]⟩, ⟨[], ["b"]⟩]

def wTCEnv : TCEnv :=
  { actions_for := fun _ => some [⟨"retrigger-multiple", "hg", "hi", "tg"⟩]
    quote_plus := fun s => s }

def wJobList : List TCJob := [⟨"Gecko Decision Task", "tid"⟩]

def wRetriggerList : List TCJob := [⟨"job-a", "t1"⟩, ⟨"job-b", "t2"⟩]

/-- The single POST `retrigger_jobs` issues under `wTCEnv`. -/
def wPosts : List PostRequest :=
  [⟨"https://tc/api/hooks/v1/hooks/hg/hi/trigger", ⟨"tg", none, [⟨["job-a", "job-b"], 3⟩]⟩⟩]

/-! ## Lemmas about the Python string primitives -/

theorem asString_data (s : String) : s.data.asString = s := by
  cases s
  rfl

theorem dropWhile_isPyWs_eq_self (l : List Char) (h : ∀ c ∈ l, isPyWs c = false) :
    l.dropWhile isPyWs = l := by
  cases l with
  | nil => rfl
  | cons c cs => simp [List.dropWhile, h c (List.mem_cons_self c cs)]

theorem pyStrip_eq_self (s : String) (h : ∀ c ∈ s.data, isPyWs c = false) :
    pyStrip s = s := by
  unfold pyStrip
  rw [dropWhile_isPyWs_eq_self s.data h]
  rw [dropWhile_isPyWs_eq_self s.data.reverse (by intro c hc; exact h c (List.mem_reverse.mp hc))]
  rw [List.reverse_reverse, asString_data]

theorem wsSplitAux_mem (l : List Char) : ∀ (acc tok : List Char),
    (∀ c ∈ acc, isPyWs c = false) → tok ∈ wsSplitAux l acc →
    tok ≠ [] ∧ ∀ c ∈ tok, isPyWs c = false := by
  induction l with
  | nil =>
    intro acc tok hacc hmem
    unfold wsSplitAux at hmem
    by_cases he : acc.isEmpty
    · simp [he] at hmem
    · simp [he] at hmem
      subst hmem
      refine ⟨?_, ?_⟩
      · simp [List.isEmpty_iff] at he
        simp [he]
      · intro c hc
        exact hacc c (List.mem_reverse.mp hc)
  | cons c cs ih =>
    intro acc tok hacc hmem
    unfold wsSplitAux at hmem
    by_cases hw : isPyWs c
    · simp only [hw, if_true] at hmem
      by_cases he : acc.isEmpty
      · simp only [he, if_true] at hmem
        exact ih [] tok (by simp) hmem
      · simp only [he, if_false] at hmem
        rcases List.mem_cons.mp hmem with hmem | hmem
        · subst hmem
          refine ⟨?_, ?_⟩
          · simp [List.isEmpty_iff] at he
            simp [he]
          · intro x hx
            exact hacc x (List.mem_reverse.mp hx)
        · exact ih [] tok (by simp) hmem
    · simp only [hw, if_false] at hmem
      refine ih (c :: acc) tok ?_ hmem
      intro x hx
      rcases List.mem_cons.mp hx with rfl | hx
      · simpa using hw
      · exact hacc x hx

theorem pySplitWs_mem (s t : String) (h : t ∈ pySplitWs s) :
    ¬(t = "") ∧ ∀ c ∈ t.data, isPyWs c = false := by
  unfold pySplitWs at h
  rcases List.mem_map.mp h with ⟨tok, htok, rfl⟩
  obtain ⟨hne, hws⟩ := wsSplitAux_mem s.data [] tok (by simp) htok
  constructor
  · intro he
    apply hne
    have : (List.asString tok).data = ("" : String).data := by rw [he]
    simpa using this
  · simpa using hws

theorem charSplitAux_no_sep (sep : Char) (l : List Char) : ∀ acc : List Char,
    (∀ c ∈ l, ¬(c = sep)) → charSplitAux sep l acc = [acc.reverse ++ l] := by
  induction l with
  | nil => intro acc _; simp [charSplitAux]
  | cons c cs ih =>
    intro acc h
    unfold charSplitAux
    rw [if_neg (h c (List.mem_cons_self c cs))]
    rw [ih (c :: acc) (fun x hx => h x (List.mem_cons_of_mem c hx))]
    simp

theorem pySplitOn_no_sep (sep : Char) (s : String) (h : ∀ c ∈ s.data, ¬(c = sep)) :
    pySplitOn sep s = [s] := by
  unfold pySplitOn
  rw [charSplitAux_no_sep sep s.data [] h]
  simp [asString_data]

theorem map_pyStrip_eq_self (ts : List String)
    (h : ∀ t ∈ ts, ∀ c ∈ t.data, isPyWs c = false) : ts.map pyStrip = ts := by
  induction ts with
  | nil => rfl
  | cons t ts ih =>
    rw [List.map_cons, pyStrip_eq_self t (h t (List.mem_cons_self t ts)),
      ih (fun x hx => h x (List.mem_cons_of_mem t hx))]

/-! ## Lemmas about Commit parsing and detail population -/

theorem ofPrettyLine?_eq_parsed (t : String) (c : Commit)
    (h : Commit.ofPrettyLine? t = some c) : c = parsed_commit t := by
  unfold Commit.ofPrettyLine? at h
  unfold parsed_commit
  rcases hp : pySplitOn '|' t with _ | ⟨p0, _ | ⟨p1, _ | ⟨p2, rest⟩⟩⟩ <;>
    rw [hp] at h <;> simp_all [List.getD]

theorem build_commits_eq (ls : List String) : ∀ cs : List Commit,
    build_commits ls = some cs → cs = ls.map parsed_commit := by
  induction ls with
  | nil => intro cs h; simp [build_commits] at h; simp [h.symm]
  | cons line rest ih =>
    intro cs h
    unfold build_commits at h
    rcases ho : Commit.ofPrettyLine? line with _ | c0
    · rw [ho] at h; exact absurd h (by simp)
    · rw [ho] at h
      rcases hb : build_commits rest with _ | cs0
      · rw [hb] at h; exact absurd h (by simp)
      · rw [hb] at h
        have hc : cs = c0 :: cs0 := by
          have := Option.some.inj h
          exact this.symm
        subst hc
        rw [List.map_cons, ← ofPrettyLine?_eq_parsed line c0 ho, ih cs0 hb]

theorem processDiffToken_none (c : Commit) (t : String) (hne : ¬(t = ""))
    (hws : ∀ ch ∈ t.data, isPyWs ch = false) : processDiffToken c t = none := by
  have hstrip : pyStrip t = t := pyStrip_eq_self t hws
  have htab : pySplitOn '\t' t = [t] := by
    refine pySplitOn_no_sep '\t' t ?_
    intro ch hch heq
    have := hws ch hch
    rw [heq] at this
    simp [isPyWs] at this
  simp only [processDiffToken, hstrip, hne, if_false, htab]
  split
  · rfl
  · split
    · rfl
    · split <;> rfl

theorem processDiffToken_rev (c c2 : Commit) (t : String)
    (h : processDiffToken c t = some c2) : c2.revision = c.revision := by
  simp only [processDiffToken] at h
  split at h
  · exact (Option.some.inj h).symm ▸ rfl
  · split at h <;> [skip; split at h] <;> [skip; skip; split at h] <;>
      · rcases Option.map_eq_some'.mp h with ⟨p1, _, hg⟩
        rw [← hg]

theorem process_diff_tokens_rev (ts : List String) : ∀ c c2 : Commit,
    process_diff_tokens c ts = some c2 → c2.revision = c.revision := by
  induction ts with
  | nil => intro c c2 h; rw [← Option.some.inj h]
  | cons t ts ih =>
    intro c c2 h
    unfold process_diff_tokens at h
    rcases hp : processDiffToken c t with _ | c1
    · rw [hp] at h; exact absurd h (by simp)
    · rw [hp] at h
      rw [ih c1 c2 h, processDiffToken_rev c c1 t hp]

theorem populate_details_rev (run : RunOutputs) (c c2 : Commit)
    (h : Commit.populate_details run c = some c2) : c2.revision = c.revision := by
  unfold Commit.populate_details at h
  rcases hp : process_diff_tokens c (pySplitWs (run.diff_name_status c.revision)) with _ | c1
  · rw [hp] at h; exact absurd h (by simp)
  · rw [hp] at h
    rw [← Option.some.inj h]
    exact process_diff_tokens_rev _ c c1 hp

theorem populate_list_rev (run : RunOutputs) (cs : List Commit) : ∀ l : List Commit,
    populate_list run cs = some l → l.map Commit.revision = cs.map Commit.revision := by
  induction cs with
  | nil => intro l h; rw [← Option.some.inj h]
  | cons c cs ih =>
    intro l h
    unfold populate_list at h
    rcases hp : Commit.populate_details run c with _ | c2
    · rw [hp] at h; exact absurd h (by simp)
    · rw [hp] at h
      rcases hl : populate_list run cs with _ | l2
      · rw [hl] at h; exact absurd h (by simp)
      · rw [hl] at h
        rw [← Option.some.inj h, List.map_cons, List.map_cons,
          populate_details_rev run c c2 hp, ih l2 hl]

theorem populate_all_ok_rev (run : RunOutputs) (cs l : List Commit)
    (h : populate_all run cs = .ok l) : l.map Commit.revision = cs.map Commit.revision := by
  unfold populate_all at h
  rcases hp : populate_list run cs with _ | l2
  · rw [hp] at h; exact absurd h (by simp)
  · rw [hp] at h
    have : l2 = l := by
      have := Except.ok.inj h
      exact this
    subst this
    exact populate_list_rev run cs l2 hp

theorem populate_all_ok_length (run : RunOutputs) (cs l : List Commit)
    (h : populate_all run cs = .ok l) : l.length = cs.length := by
  have := populate_all_ok_rev run cs l h
  have h2 := congrArg List.length this
  simpa using h2

theorem populate_all_error (run : RunOutputs) (cs : List Commit) (e : CfuError)
    (h : populate_all run cs = .error e) : e = .populateIndexError := by
  unfold populate_all at h
  rcases hp : populate_list run cs with _ | l2 <;> rw [hp] at h
  · exact (Except.error.inj h).symm
  · exact absurd h (by simp)

theorem commitListEq_iff (as : List Commit) : ∀ bs : List Commit,
    commitListEq as bs = true ↔ as.map Commit.revision = bs.map Commit.revision := by
  induction as with
  | nil => intro bs; cases bs <;> simp [commitListEq]
  | cons a as ih =>
    intro bs
    cases bs with
    | nil => simp [commitListEq]
    | cons b bs => simp [commitListEq, ih bs]

/-- C5: any successful `_commits_since` result is the reversal of the
newest-first tokenized `git log` output, in oldest-first order, each
record carrying the revision, author date and commit date that
`parsed_commit` reads off its own log line. -/
theorem commits_since_oldest_first (log : String → String) (rev : String) (cs : List Commit)
    (h : commits_since log rev = some cs) :
    cs = ((pySplitWs (log rev)).reverse).map parsed_commit := by
  simp only [commits_since, commits_of_output] at h
  rw [map_pyStrip_eq_self (pySplitWs (log rev))
    (fun t ht => (pySplitWs_mem (log rev) t ht).2)] at h
  rw [List.filter_eq_self.mpr ?keep] at h
  case keep =>
    intro a ha
    have := (pySplitWs_mem (log rev) a (List.mem_reverse.mp ha)).1
    simpa using this
  exact build_commits_eq _ cs h

/-! ## Reduction lemmas for `check_for_update` -/

/-- Under the case-A hypotheses (branch check passes, a most recent job whose
version is among the new revisions, non-empty unseen list), `check_for_update`
reduces to the suffix validation followed by detail population. -/
theorem check_caseA_key (env : GitEnv) (library : Library) (task : UBTask)
    (j : JobRecord) (rest : List JobRecord) (all_new unseen : List Commit)
    (hb : (containing_branches_of env).contains (current_branch_of env) = true)
    (h1 : commits_since env.log_since library.revision = some all_new)
    (h2 : (all_new.map Commit.revision).contains j.version = true)
    (h3 : commits_since env.log_since j.version = some unseen)
    (h4 : ¬(unseen = [])) :
    check_for_update env library task (j :: rest) =
      if (all_new.length : Int) - (unseen.length : Int) < 0 then
        .error .moreUnseenThanAllNew
      else if ¬ commitListEq
          (all_new.drop ((all_new.length : Int) - (unseen.length : Int)).toNat) unseen then
        .error .notStrictSubset
      else populate_all env.run_outputs unseen := by
  have hne : ¬(all_new = []) := by
    intro he
    subst he
    simp at h2
  have hlu : ¬(unseen.length = 0) := by simpa [List.length_eq_zero] using h4
  have hassert : ¬((all_new.length : Int) - (unseen.length : Int) = (all_new.length : Int)) := by
    omega
  simp only [check_for_update, hb, h1, h2, h3, hne, hlu, hassert, not_true, not_false_iff,
    if_true, if_false, ite_false, ite_true]

/-- Under the case-B hypotheses (branch check passes, new commits exist, and
there either is no prior job or its version is not among the new revisions),
`check_for_update` populates and returns the whole new list. -/
theorem check_caseB_key (env : GitEnv) (library : Library) (task : UBTask)
    (jobs : List JobRecord) (all_new : List Commit)
    (hb : (containing_branches_of env).contains (current_branch_of env) = true)
    (h1 : commits_since env.log_since library.revision = some all_new)
    (hne : ¬(all_new = []))
    (hj : jobs = [] ∨ ∃ j rest, jobs = j :: rest ∧
      (all_new.map Commit.revision).contains j.version = false) :
    check_for_update env library task jobs = populate_all env.run_outputs all_new := by
  rcases hj with rfl | ⟨j, rest, rfl, hcont⟩
  · simp only [check_for_update, hb, h1, hne, not_true, if_true, if_false, ite_false, ite_true]
  · simp only [check_for_update, hb, h1, hne, hcont, not_true, if_true, if_false,
      Bool.false_eq_true, ite_false, ite_true]

/-- Every exception `check_for_update` raises is the branch-containment
error (only when the containment check fails) or one of the four
non-assertion errors; the `assert offsetIndex != len(...)` branch is
unreachable. -/
theorem check_error_shape (env : GitEnv) (library : Library) (task : UBTask)
    (jobs : List JobRecord) (e : CfuError)
    (h : check_for_update env library task jobs = .error e) :
    (¬((containing_branches_of env).contains (current_branch_of env) = true) ∧
      e = .revNotContained library.revision (current_branch_of env) (containing_branches_of env)) ∨
    e = .commitIndexError ∨ e = .moreUnseenThanAllNew ∨ e = .notStrictSubset ∨
    e = .populateIndexError := by
  by_cases hb : (containing_branches_of env).contains (current_branch_of env) = true
  · right
    simp only [check_for_update] at h
    rw [if_neg (not_not_intro hb)] at h
    split at h
    · exact Or.inl (Except.error.inj h).symm
    · split at h
      · exact absurd h (by simp)
      · split at h
        · exact Or.inr (Or.inr (Or.inr (populate_all_error _ _ _ h)))
        · split at h
          · split at h
            · exact Or.inl (Except.error.inj h).symm
            · split at h
              · exact absurd h (by simp)
              · split at h
                · omega
                · split at h
                  · exact Or.inr (Or.inl (Except.error.inj h).symm)
                  · split at h
                    · exact Or.inr (Or.inr (Or.inl (Except.error.inj h).symm))
                    · exact Or.inr (Or.inr (Or.inr (populate_all_error _ _ _ h)))
          · exact Or.inr (Or.inr (Or.inr (populate_all_error _ _ _ h)))
  · left
    simp only [check_for_update] at h
    rw [if_pos hb] at h
    exact ⟨hb, (Except.error.inj h).symm⟩

/-! ## Claim C1 -/

/-- C1: whenever the most recent prior job's version appears among the
revisions of `all_new_upstream_commits` and the separately fetched
`unseen_new_upstream_commits` list is non-empty, a normal return of
`check_for_update` is exactly the suffix
`all_new[len(all_new) - len(unseen):]`, element-wise by revision equality
and in order; a negative offset raises, and a failed suffix comparison
raises, so no list violating the suffix relation is ever returned. -/
theorem check_for_update_suffix_invariant (env : GitEnv) (library : Library)
    (task : UBTask) (j : JobRecord) (rest : List JobRecord) (all_new unseen : List Commit)
    (hb : (containing_branches_of env).contains (current_branch_of env) = true)
    (h1 : commits_since env.log_since library.revision = some all_new)
    (h2 : (all_new.map Commit.revision).contains j.version = true)
    (h3 : commits_since env.log_since j.version = some unseen)
    (h4 : ¬(unseen = [])) :
    (∀ res, check_for_update env library task (j :: rest) = .ok res →
      res.length ≤ all_new.length ∧
      res.map Commit.revision =
        (all_new.drop (all_new.length - res.length)).map Commit.revision) ∧
    ((all_new.length : Int) - (unseen.length : Int) < 0 →
      check_for_update env library task (j :: rest) = .error .moreUnseenThanAllNew) ∧
    (0 ≤ (all_new.length : Int) - (unseen.length : Int) →
      commitListEq (all_new.drop (all_new.length - unseen.length)) unseen = false →
      check_for_update env library task (j :: rest) = .error .notStrictSubset) := by
  have hkey := check_caseA_key env library task j rest all_new unseen hb h1 h2 h3 h4
  refine ⟨?_, ?_, ?_⟩
  · intro res hres
    rw [hkey] at hres
    by_cases hneg : (all_new.length : Int) - (unseen.length : Int) < 0
    · rw [if_pos hneg] at hres
      exact absurd hres (by simp)
    · rw [if_neg hneg] at hres
      have htn : ((all_new.length : Int) - (unseen.length : Int)).toNat =
          all_new.length - unseen.length := by omega
      rw [htn] at hres
      by_cases hceq : commitListEq (all_new.drop (all_new.length - unseen.length)) unseen = true
      · rw [if_neg (not_not_intro hceq)] at hres
        have hrev := populate_all_ok_rev env.run_outputs unseen res hres
        have hlen : res.length = unseen.length := by
          have := congrArg List.length hrev
          simpa using this
        have hdrop := (commitListEq_iff _ unseen).mp hceq
        constructor
        · omega
        · rw [hlen, hrev, hdrop]
      · rw [if_pos (by simpa using hceq)] at hres
        exact absurd hres (by simp)
  · intro hneg
    rw [hkey, if_pos hneg]
  · intro hpos hceq
    rw [hkey, if_neg (by omega)]
    have htn : ((all_new.length : Int) - (unseen.length : Int)).toNat =
        all_new.length - unseen.length := by omega
    rw [htn, if_pos (by simp [hceq])]

/-- Witness for C1: history `R0 → R1 → R2 → R3`, prior job at `R1`,
`unseen = [R2, R3]`, and the returned populated list is exactly the suffix
of the all-new list. -/
theorem check_for_update_suffix_invariant_witness :
    wRes.length ≤ wAllNew.length ∧
    wRes.map Commit.revision =
      (wAllNew.drop (wAllNew.length - wRes.length)).map Commit.revision :=
  (check_for_update_suffix_invariant wEnv wLib wTask ⟨"R1", "b1"⟩ [] wAllNew wUnseen
    (by decide) (by decide) (by decide) (by decide) (by decide)).1 wRes (by rfl)

/-! ## Claim C2 -/

/-- C2: when there are new upstream commits and either no prior job exists
or the most recent job's version is not among the new revisions,
`check_for_update` returns the populated form of the entire all-new list,
performs no suffix check (it succeeds whatever the lists' relation is), and
performs no second `commits_since` fetch (its result depends on the log
output only at the library revision). -/
theorem check_for_update_case_b (env : GitEnv) (library : Library) (task : UBTask)
    (jobs : List JobRecord) (all_new : List Commit)
    (hb : (containing_branches_of env).contains (current_branch_of env) = true)
    (h1 : commits_since env.log_since library.revision = some all_new)
    (hne : ¬(all_new = []))
    (hj : jobs = [] ∨ ∃ j rest, jobs = j :: rest ∧
      (all_new.map Commit.revision).contains j.version = false) :
    check_for_update env library task jobs = populate_all env.run_outputs all_new ∧
    (∀ res, check_for_update env library task jobs = .ok res →
      res.map Commit.revision = all_new.map Commit.revision) ∧
    (∀ log2 : String → String, log2 library.revision = env.log_since library.revision →
      check_for_update { env with log_since := log2 } library task jobs =
        check_for_update env library task jobs) := by
  have hkey := check_caseB_key env library task jobs all_new hb h1 hne hj
  refine ⟨hkey, ?_, ?_⟩
  · intro res hres
    rw [hkey] at hres
    exact populate_all_ok_rev env.run_outputs all_new res hres
  · intro log2 hlog
    have h1' : commits_since log2 library.revision = some all_new := by
      show commits_of_output (log2 library.revision) = some all_new
      rw [hlog]
      exact h1
    have hkey' := check_caseB_key { env with log_since := log2 } library task jobs all_new
      hb h1' hne hj
    rw [hkey', hkey]

/-- Witness for C2: first run (no prior jobs) over `R0 → R1 → R2 → R3`
returns the populated whole list. -/
theorem check_for_update_case_b_witness :
    check_for_update wEnv wLib wTask [] = populate_all wEnv.run_outputs wAllNew :=
  (check_for_update_case_b wEnv wLib wTask [] wAllNew (by decide) (by decide) (by decide)
    (Or.inl rfl)).1

/-! ## Claim C4 -/

/-- C4: when the library revision is not contained in the currently checked
out branch, `check_for_update` raises the fatal error carrying the revision,
the current branch and the full list of containing branches (for every log
environment, i.e. before any commit range is fetched); when it is contained,
no such error is ever raised. -/
theorem check_for_update_branch_guard (env : GitEnv) (library : Library)
    (task : UBTask) (jobs : List JobRecord) :
    (¬((containing_branches_of env).contains (current_branch_of env) = true) →
      check_for_update env library task jobs =
        .error (.revNotContained library.revision (current_branch_of env)
          (containing_branches_of env))) ∧
    ((containing_branches_of env).contains (current_branch_of env) = true →
      ∀ r b l, ¬(check_for_update env library task jobs = .error (.revNotContained r b l))) := by
  constructor
  · intro hnc
    simp only [check_for_update]
    rw [if_pos hnc]
  · intro hb r b l h
    rcases check_error_shape env library task jobs _ h with ⟨hnb, _⟩ | he | he | he | he
    · exact hnb hb
    all_goals exact CfuError.noConfusion he

/-- Witness for C4: on `wEnvNoBranch` (checkout on `main`, revision only in
`dev`) the fatal error fires with full diagnostics; on `wEnv` no
containment error is raised. -/
theorem check_for_update_branch_guard_witness :
    check_for_update wEnvNoBranch wLib wTask [] =
      .error (.revNotContained wLib.revision (current_branch_of wEnvNoBranch)
        (containing_branches_of wEnvNoBranch)) ∧
    ¬(check_for_update wEnv wLib wTask [] = .error (.revNotContained "R0" "main" [])) :=
  ⟨(check_for_update_branch_guard wEnvNoBranch wLib wTask []).1 (by decide),
    (check_for_update_branch_guard wEnv wLib wTask []).2 (by decide) "R0" "main" []⟩

/-! ## Claim C10 -/

/-- C10: the `assert offsetIndex != len(all_new_upstream_commits)` in
`check_for_update` can never fail: no run of the function raises the
assertion error, because in the branch where the assertion executes the
unseen list was already checked to be non-empty, so the offset is strictly
below the all-new length. -/
theorem check_for_update_assert_unreachable (env : GitEnv) (library : Library)
    (task : UBTask) (jobs : List JobRecord) (e : CfuError)
    (h : check_for_update env library task jobs = .error e) :
    ¬(e = .assertOffsetIsLength) := by
  intro he
  subst he
  rcases check_error_shape env library task jobs _ h with ⟨_, he⟩ | he | he | he | he <;>
    exact CfuError.noConfusion he

/-- Witness for C10: a run that does raise (suffix mismatch after a history
rewrite) raises a non-assertion error. -/
theorem check_for_update_assert_unreachable_witness :
    ¬(CfuError.notStrictSubset = CfuError.assertOffsetIsLength) :=
  check_for_update_assert_unreachable wEnvRewritten wLib wTask [⟨"A", "b2"⟩]
    CfuError.notStrictSubset (by rfl)

/-- Witness for C5: the three-commit log of `wEnv` parses to `wAllNew`,
oldest first. -/
theorem commits_since_oldest_first_witness :
    wAllNew = ((pySplitWs (wEnv.log_since "R0")).reverse).map parsed_commit :=
  commits_since_oldest_first wEnv.log_since "R0" wAllNew (by decide)

/-! ## Claim C6 -/

/-- When `str.split()` finds no token in the diff output,
`populate_details` leaves the file lists alone and assigns the three
message fields. -/
theorem populate_empty_toks (run : RunOutputs) (c : Commit)
    (htoks : pySplitWs (run.diff_name_status c.revision) = []) :
    Commit.populate_details run c = some
      { c with
        summary := some (run.log_summary c.revision)
        description := some (run.log_body c.revision)
        revision_link :=
          some ("https://chromium.googlesource.com/angle/angle" ++ "/+/" ++ c.revision) } := by
  simp only [Commit.populate_details, htoks, process_diff_tokens]

/-- C6: `populate_details` is idempotent: for every commit record and
every fixed collaborator output, running it twice (propagating a first
failure, as Python propagates the exception) equals running it once. -/
theorem populate_details_idempotent (run : RunOutputs) (c : Commit) :
    (Commit.populate_details run c).bind (Commit.populate_details run) =
      Commit.populate_details run c := by
  cases htoks : pySplitWs (run.diff_name_status c.revision) with
  | nil =>
    rw [populate_empty_toks run c htoks, Option.some_bind]
    exact populate_empty_toks run _ htoks
  | cons t ts =>
    obtain ⟨hne, hws⟩ := pySplitWs_mem _ t (by rw [htoks]; exact List.mem_cons_self t ts)
    have hnone : Commit.populate_details run c = none := by
      simp only [Commit.populate_details, htoks, process_diff_tokens,
        processDiffToken_none c t hne hws]
    rw [hnone]
    rfl

/-! ## Claim C8 -/

/-- C8: every successful `retrigger_jobs` call issues exactly one trigger
POST, whose context carries a null task id and a single input request
listing the caller-supplied retrigger list's task names with a repeat
count of `TRIGGER_TOTAL - 1 = 3` additional runs (`TRIGGER_TOTAL = 4`). -/
theorem retrigger_jobs_single_post (env : TCEnv) (url : String)
    (job_list retrigger_list : List TCJob) (posts : List PostRequest)
    (h : retrigger_jobs env url job_list retrigger_list = .ok posts) :
    TRIGGER_TOTAL = 4 ∧ TRIGGER_TOTAL - 1 = 3 ∧ posts.length = 1 ∧
    posts.map (fun p => p.context.taskId) = [none] ∧
    posts.map (fun p => p.context.requests) =
      [[{ tasks := retrigger_list.map TCJob.job_type_name, times := TRIGGER_TOTAL - 1 }]] := by
  unfold retrigger_jobs at h
  split at h
  · exact Except.noConfusion h
  · split at h
    · exact Except.noConfusion h
    · split at h
      · exact Except.noConfusion h
      · have hp : posts = _ := (Except.ok.inj h).symm
        subst hp
        refine ⟨rfl, rfl, rfl, rfl, rfl⟩

/-- Witness for C8 at a concrete job list and two-element retrigger list. -/
theorem retrigger_jobs_single_post_witness :
    TRIGGER_TOTAL = 4 ∧ TRIGGER_TOTAL - 1 = 3 ∧ wPosts.length = 1 ∧
    wPosts.map (fun p => p.context.taskId) = [none] ∧
    wPosts.map (fun p => p.context.requests) =
      [[{ tasks := wRetriggerList.map TCJob.job_type_name, times := TRIGGER_TOTAL - 1 }]] :=
  retrigger_jobs_single_post wTCEnv "https://tc/" wJobList wRetriggerList wPosts (by rfl)

/-! ## Claim C9 -/

/-- C9: `Commit.__eq__` compares two commit records exactly by their
`revision` fields (no other field participates), and comparing a commit
record with any non-`Commit` value yields `False`. -/
theorem commit_py_eq_revision_only (a b : Commit) (tag : String) :
    a.py_eq (.commit b) = (a.revision == b.revision) ∧
    (a.py_eq (.commit b) = true ↔ a.revision = b.revision) ∧
    a.py_eq (.other tag) = false := by
  refine ⟨rfl, ?_, rfl⟩
  simp [Commit.py_eq]

/-! ## Claim C7 -/

theorem validate_names_go_ok_of (names pnames : List String)
    (hlen : names.length = pnames.length) : ∀ (rest : List String) (i : Nat),
    (∀ j : Nat, rest.getD j "" = pnames.getD (i + j) "") →
    validate_names_go names pnames i rest = .ok () := by
  intro rest
  induction rest with
  | nil => intro i _; rfl
  | cons n rest ih =>
    intro i hj
    unfold validate_names_go
    rw [if_neg (not_not_intro hlen)]
    have h0 := hj 0
    simp only [List.getD_cons_zero, Nat.add_zero] at h0
    rw [if_neg (not_not_intro h0)]
    refine ih (i + 1) ?_
    intro j
    have := hj (j + 1)
    simp only [List.getD_cons_succ] at this
    rw [this]
    congr 1
    omega

theorem validate_names_ok_self (names : List String) :
    validate_names names names = .ok () := by
  refine validate_names_go_ok_of names names rfl names 0 ?_
  intro j
  rw [Nat.zero_add]

theorem validate_names_go_ok_imp (names pnames : List String) : ∀ (rest : List String) (i : Nat),
    validate_names_go names pnames i rest = .ok () → ¬(rest = []) →
    names.length = pnames.length ∧
      ∀ j, j < rest.length → rest.getD j "" = pnames.getD (i + j) "" := by
  intro rest
  induction rest with
  | nil => intro i _ hne; exact absurd rfl hne
  | cons n rest ih =>
    intro i h _
    unfold validate_names_go at h
    by_cases hl : names.length ≠ pnames.length
    · rw [if_pos hl] at h
      exact Except.noConfusion h
    · rw [if_neg hl] at h
      by_cases hn : n ≠ pnames.getD i ""
      · rw [if_pos hn] at h
        exact Except.noConfusion h
      · rw [if_neg hn] at h
        refine ⟨not_not.mp hl, ?_⟩
        intro j hj
        cases j with
        | zero => simpa using not_not.mp hn
        | succ k =>
          have hkr : ¬(rest = []) := by
            intro he
            subst he
            simp at hj
          have := (ih (i + 1) h hkr).2 k (by simpa using hj)
          simp only [List.getD_cons_succ]
          rw [this]
          congr 1
          omega

theorem validate_names_eq_of_ok (names pnames : List String)
    (h : validate_names names pnames = .ok ()) (hne : ¬(names = [])) : names = pnames := by
  obtain ⟨hlen, hj⟩ := validate_names_go_ok_imp names pnames names 0 h hne
  refine List.ext_getElem hlen ?_
  intro i hi1 hi2
  have := hj i hi1
  rw [List.getD_eq_getElem names "" hi1, List.getD_eq_getElem pnames "" (by omega)] at this
  simpa using this

theorem loop_error_of_mismatch : ∀ (pages : List JobsPage) (names : List String)
    (jobs : List (List String)), ¬(names = []) →
    (∃ p ∈ pages, ¬(p.job_property_names = names)) →
    ∃ e, get_job_details_loop pages names jobs = .error e := by
  intro pages
  induction pages with
  | nil =>
    rintro names jobs _ ⟨p, hp, _⟩
    simp at hp
  | cons p ps ih =>
    rintro names jobs hne ⟨q, hq, hqne⟩
    cases hv : validate_names names p.job_property_names with
    | error e =>
      refine ⟨e, ?_⟩
      unfold get_job_details_loop
      rw [if_neg hne, hv]
    | ok u =>
      cases u
      by_cases hpn : p.job_property_names = names
      · rcases List.mem_cons.mp hq with rfl | hq2
        · exact absurd hpn hqne
        · obtain ⟨e, he⟩ := ih names (jobs ++ p.results) hne ⟨q, hq2, hqne⟩
          refine ⟨e, ?_⟩
          unfold get_job_details_loop
          rw [if_neg hne, hv]
          exact he
      · have := validate_names_eq_of_ok names p.job_property_names hv hne
        exact absurd this.symm hpn

/-- C7 counterexample: when the first page's property-name list is empty
`[]` and the second page's is `["a"]` — differing in length — the loop
silently adopts the second page's names and `get_job_details` returns a
job list instead of raising. -/
theorem get_job_details_mismatch_counterexample :
    ¬((wPagesEmptyFirst.getD 1 ⟨[], []⟩).job_property_names =
      (wPagesEmptyFirst.getD 0 ⟨[], []⟩).job_property_names) ∧
    get_job_details wPagesEmptyFirst = .ok [[("a", "x")]] :=
  ⟨by decide, by rfl⟩

/-- C7 (amended): for every paginated job-list fetch whose first page has a
non-empty property-name list, if any later page's property-name list
differs from the first page's (in length or in any element at any
position), `get_job_details` raises a fatal error before any job list is
returned. -/
theorem get_job_details_mismatch_fatal (p1 : JobsPage) (rest : List JobsPage)
    (h1 : ¬(p1.job_property_names = []))
    (h2 : ∃ p ∈ rest, ¬(p.job_property_names = p1.job_property_names)) :
    (get_job_details (p1 :: rest)).isOk = false := by
  obtain ⟨e, he⟩ := loop_error_of_mismatch rest p1.job_property_names p1.results h1 h2
  have hl : get_job_details_loop (p1 :: rest) [] [] = .error e := by
    unfold get_job_details_loop
    rw [if_pos rfl]
    simpa using he
  unfold get_job_details
  rw [hl]
  rfl

/-- Witness for the amended C7 at two pages with differing non-empty
property-name lists. -/
theorem get_job_details_mismatch_fatal_witness :
    (get_job_details wPagesMismatch).isOk = false :=
  get_job_details_mismatch_fatal ⟨[], ["a"]⟩ [⟨[], ["b"]⟩] (by decide)
    ⟨⟨[], ["b"]⟩, List.mem_cons_self _ _, by decide⟩

/-! ## Claim C3 -/

/-- C3: `check_for_update` returns the empty list — not an error — exactly
in the two expected-empty terminal cases: (a) `commits_since` of the
library revision is empty (nothing new upstream), or (b) the most recent
job's version appears among the new revisions and `commits_since` of that
version is empty (revision already fully processed), in which case it
returns before any suffix-invariant validation runs. -/
theorem check_for_update_empty_iff (env : GitEnv) (library : Library)
    (task : UBTask) (jobs : List JobRecord) :
    check_for_update env library task jobs = .ok [] ↔
      ((containing_branches_of env).contains (current_branch_of env) = true ∧
        (commits_since env.log_since library.revision = some [] ∨
          ∃ j rest all_new, jobs = j :: rest ∧
            commits_since env.log_since library.revision = some all_new ∧
            (all_new.map Commit.revision).contains j.version = true ∧
            commits_since env.log_since j.version = some [])) := by
  constructor
  · intro h
    by_cases hb : (containing_branches_of env).contains (current_branch_of env) = true
    case neg =>
      simp only [check_for_update] at h
      rw [if_pos hb] at h
      exact Except.noConfusion h
    refine ⟨hb, ?_⟩
    simp only [check_for_update] at h
    rw [if_neg (not_not_intro hb)] at h
    split at h
    · exact Except.noConfusion h
    rename_i all_new heq
    split at h
    · rename_i hae
      exact Or.inl (hae ▸ heq)
    rename_i hae
    split at h
    · -- no prior job: populate_all of a non-empty list cannot be `ok []`
      have := populate_all_ok_length env.run_outputs all_new [] h
      simp at this
      exact (hae (List.length_eq_zero.mp this.symm)).elim
    rename_i j rest
    split at h
    · rename_i hcont
      split at h
      · exact Except.noConfusion h
      rename_i unseen heq2
      split at h
      · rename_i hlen
        refine Or.inr ⟨j, rest, all_new, rfl, heq, hcont, ?_⟩
        rw [heq2, List.length_eq_zero.mp hlen]
      rename_i hlen
      split at h
      · exact Except.noConfusion h
      split at h
      · exact Except.noConfusion h
      split at h
      · exact Except.noConfusion h
      have := populate_all_ok_length env.run_outputs unseen [] h
      simp at this
      exact (hlen this.symm).elim
    · have := populate_all_ok_length env.run_outputs all_new [] h
      simp at this
      exact (hae (List.length_eq_zero.mp this.symm)).elim
  · rintro ⟨hb, hcase | ⟨j, rest, all_new, rfl, hcs, hcont, hcs2⟩⟩
    · simp only [check_for_update]
      rw [if_neg (not_not_intro hb), hcase]
      simp
    · have hne : ¬(all_new = []) := by
        intro he
        subst he
        simp at hcont
      simp only [check_for_update]
      rw [if_neg (not_not_intro hb)]
      simp [hcs, hcont, hcs2, hne]
      intro hall
      exfalso
      have hmem : j.version ∈ all_new.map Commit.revision := by
        simpa using hcont
      rcases List.mem_map.mp hmem with ⟨x, hx, hrev⟩
      exact hall x hx hrev

end Updatebot
